import Mathlib

/-!
Verification development for the voice-dictation tmux wrapper
(`scripts/voice-wrapper.py`): the command-catalog builder, the pane-mirror
polling loop, and the input injector, embedded shallowly and checked
against the design document.
-/

namespace VoiceWrapper

/-- A command catalog entry, as served by `GET /commands`:
`command` (leading "/"), `description`, `takes_args`. -/
structure Command where
  command : String
  description : String
  takes_args : Bool
deriving DecidableEq, Repr

/-- The static built-in command table `BUILTIN_COMMANDS` from the source,
verbatim, in its fixed order. -/
def BUILTIN_COMMANDS : List Command :=
  [⟨"/bug",               "Report a Claude Code bug",          false⟩,
   ⟨"/clear",             "Clear conversation history",         false⟩,
   ⟨"/compact",           "Compact conversation with summary",  true⟩,
   ⟨"/config",            "Manage configuration",               true⟩,
   ⟨"/cost",              "Show token usage and cost",          false⟩,
   ⟨"/doctor",            "Check Claude Code installation",     false⟩,
   ⟨"/exit",              "Exit Claude Code",                   false⟩,
   ⟨"/help",              "Show help",                          true⟩,
   ⟨"/ide",               "Connect to IDE",                     false⟩,
   ⟨"/init",              "Initialize project with CLAUDE.md",  false⟩,
   ⟨"/login",             "Sign in to Claude",                  false⟩,
   ⟨"/logout",            "Sign out from Claude",               false⟩,
   ⟨"/mcp",               "Manage MCP servers",                 true⟩,
   ⟨"/memory",            "Edit memory (CLAUDE.md)",            false⟩,
   ⟨"/migrate-installer", "Migrate to latest installer",        false⟩,
   ⟨"/model",             "Set or show current AI model",       true⟩,
   ⟨"/pr-comments",       "View pull request comments",         false⟩,
   ⟨"/reset",             "Reset to empty project context",     false⟩,
   ⟨"/resume",            "Resume a previous conversation",     true⟩,
   ⟨"/review",            "Request code review",                false⟩,
   ⟨"/status",            "Show account and system status",     false⟩,
   ⟨"/terminal",          "Run a terminal command",             true⟩,
   ⟨"/vim",               "Enter vim mode",                     false⟩]

/-! ### String order

Python compares strings lexicographically by code point; Lean's `String` order
does not reduce in the kernel, so we define the same lexicographic order
executably over `List Char`. -/

/-- Code-point lexicographic order on character lists: exactly Python's
`str` comparison used by `sorted(..., key=lambda c: c["command"])`. -/
def lexLe : List Char → List Char → Bool
  | [], _ => true
  | _ :: _, [] => false
  | a :: as, b :: bs =>
    if a.toNat = b.toNat then lexLe as bs
    else decide (a.toNat < b.toNat)

/-- Lexicographic (code point) order on strings. -/
def strLe (s t : String) : Bool := lexLe s.toList t.toList

/-! ### Descriptor (SKILL.md) front-matter parsing, after `_parse_skill_md`. -/

/-- Python's `\s` whitespace class restricted to ASCII, as used via
`re` and `str.strip()` on the descriptor values. -/
def pyIsSpace (c : Char) : Bool :=
  c = ' ' || c = '\t' || c = '\n' || c = '\r' || c = '\x0b' || c = '\x0c'

/-- Index of the first occurrence of `pat` as a contiguous sublist,
scanning left to right (the semantics of the non-greedy `(.*?)`). -/
def findSubIdx (pat : List Char) : List Char → Option Nat
  | [] => if pat.isPrefixOf ([] : List Char) then some 0 else none
  | c :: cs =>
    if pat.isPrefixOf (c :: cs) then some 0
    else (findSubIdx pat cs).map (· + 1)

/-- The front-matter block: `re.match(r"^---\n(.*?)\n---", content, re.DOTALL)`.
The content must begin with the delimiter line; the non-greedy group captures
up to the first following `"\n---"`. -/
def frontmatterOf (content : String) : Option (List Char) :=
  let cs := content.toList
  if ("---\n".toList).isPrefixOf cs then
    let rest := cs.drop 4
    (findSubIdx ("\n---".toList) rest).map (fun j => rest.take j)
  else none

/-- All suffixes starting just after a newline, in textual order: the
candidate `^` anchor positions of `re.MULTILINE` other than the start. -/
def tailsAfterNl : List Char → List (List Char)
  | [] => []
  | c :: cs => (if c = '\n' then [cs] else []) ++ tailsAfterNl cs

/-- The `\s*(.+)$` suffix of the key-line pattern, with the regex engine's
greedy/backtracking semantics: skip the maximal whitespace run and capture
the rest of that line; if whitespace runs to the end of the block, backtrack
to the last non-newline (whitespace) character. -/
def captureAfter (r : List Char) : Option (List Char) :=
  let ws := r.takeWhile pyIsSpace
  let rest := r.drop ws.length
  match rest with
  | _ :: _ => some (rest.takeWhile (fun c => c != '\n'))
  | [] => (r.reverse.find? (fun c => c != '\n')).map (fun c => [c])

/-- `re.search("^" ++ key ++ "\s*(.+)$", fm, re.MULTILINE)`: try each line
start in textual order, returning the first capture. -/
def searchKey (key : List Char) (fm : List Char) : Option (List Char) :=
  (fm :: tailsAfterNl fm).findSome? fun s =>
    if key.isPrefixOf s then captureAfter (s.drop key.length) else none

/-- Python `str.strip()`: remove leading and trailing whitespace. -/
def pyStrip (s : List Char) : List Char :=
  ((s.dropWhile pyIsSpace).reverse.dropWhile pyIsSpace).reverse

/-- Python `str.strip('"')`: remove all leading and trailing quote characters. -/
def stripQuotes (s : List Char) : List Char :=
  ((s.dropWhile (· = '"')).reverse.dropWhile (· = '"')).reverse

/-- `_parse_skill_md`: returns the parsed name (or `none`) and description
(defaulting to `""`) from a descriptor file's content. The Python original
additionally swallows every exception into `(None, "")`; the embedding is
total, so that branch is the `none` result of `frontmatterOf`. -/
def parse_skill_md (content : String) : Option String × String :=
  match frontmatterOf content with
  | none => (none, "")
  | some fm =>
    let name := (searchKey ("name:".toList) fm).map
      fun g => (stripQuotes (pyStrip g)).asString
    let desc :=
      match searchKey ("description:".toList) fm with
      | some g => (stripQuotes (pyStrip g)).asString
      | none => ""
    (name, desc)

/-! ### Catalog collection, after `_collect_skill_commands` / `get_commands`.

The filesystem state is the list of user-skill descriptor contents (one per
`~/.claude/skills/*/SKILL.md` match, in traversal order) and the list of
plugin descriptor files as (path segments, content) pairs (one per
`~/.claude/plugins/cache/**/SKILL.md` match, in traversal order). -/

/-- A dedup key as stored in the Python `seen` set: user skills insert the
bare name (a `str`), plugin skills insert the `(plugin, name)` tuple; a
string never equals a tuple, so the set is a disjoint sum. -/
inductive SkillKey where
  | user (name : String)
  | plug (pluginName name : String)
deriving DecidableEq, Repr

/-- `parts.index("cache")` then `parts[cache_idx + 2]`, with both the
`ValueError` (no `cache` segment) and `IndexError` (offset out of range)
paths mapped to `none` (the `continue` branch). -/
def pluginNameOf (parts : List String) : Option String :=
  match parts.findIdx? (fun s => s == "cache") with
  | none => none
  | some i => parts.get? (i + 2)

/-- One iteration of the user-skills loop: parse; if the name is truthy and
unseen, record the key and append `"/" ++ name`. -/
def userStep (st : List SkillKey × List (SkillKey × Command)) (content : String) :
    List SkillKey × List (SkillKey × Command) :=
  match parse_skill_md content with
  | (some n, desc) =>
    if n ≠ "" ∧ SkillKey.user n ∉ st.1 then
      (SkillKey.user n :: st.1, st.2 ++ [(SkillKey.user n, ⟨"/" ++ n, desc, true⟩)])
    else st
  | (none, _) => st

/-- One iteration of the plugin loop: extract the plugin identity from the
path (discarding on failure), parse, dedup on the `(plugin, name)` pair, and
append `"/" ++ name` when the plugin identity equals the skill name,
otherwise `"/" ++ plugin ++ ":" ++ name`. -/
def pluginStep (st : List SkillKey × List (SkillKey × Command))
    (file : List String × String) :
    List SkillKey × List (SkillKey × Command) :=
  match pluginNameOf file.1 with
  | none => st
  | some p =>
    match parse_skill_md file.2 with
    | (some n, desc) =>
      if n ≠ "" ∧ SkillKey.plug p n ∉ st.1 then
        (SkillKey.plug p n :: st.1,
         st.2 ++ [(SkillKey.plug p n,
           ⟨if p = n then "/" ++ n else "/" ++ p ++ ":" ++ n, desc, true⟩)])
      else st
    | (none, _) => st

/-- `_collect_skill_commands`, instrumented to keep each emitted entry's
dedup key alongside it (the Python `seen` set holds exactly these keys).
The final `sorted(commands, key=lambda c: c["command"])` is a stable sort by
command string; `insertionSort` is stable, so it computes the same list. -/
def collectKeyed (userFiles : List String)
    (pluginFiles : List (List String × String)) : List (SkillKey × Command) :=
  let st1 := userFiles.foldl userStep ([], [])
  let st2 := pluginFiles.foldl pluginStep st1
  List.insertionSort (fun a b => strLe a.2.command b.2.command = true) st2.2

/-- `_collect_skill_commands`: the discovered entries, sorted by command. -/
def collect_skill_commands (userFiles : List String)
    (pluginFiles : List (List String × String)) : List Command :=
  (collectKeyed userFiles pluginFiles).map (fun kc => kc.2)

/-- `GET /commands`: `list(BUILTIN_COMMANDS) + _collect_skill_commands()`. -/
def get_commands (userFiles : List String)
    (pluginFiles : List (List String × String)) : List Command :=
  BUILTIN_COMMANDS ++ collect_skill_commands userFiles pluginFiles

/-- The identity key of a catalog entry as the design document defines it:
for built-ins and user-level skills the bare command name, for
plugin-provided entries the (plugin identity, skill name) pair. -/
inductive IdKey where
  | bare (name : String)
  | qual (pluginName name : String)
deriving DecidableEq, Repr

/-- The dedup key of a discovered entry, viewed as a catalog identity key. -/
def skillKeyToId : SkillKey → IdKey
  | .user n => .bare n
  | .plug p n => .qual p n

/-- Built-in entries tagged with their identity keys (bare command name,
i.e. the command string without its leading "/"). -/
def builtinKeyed : List (IdKey × Command) :=
  BUILTIN_COMMANDS.map fun c => (IdKey.bare (c.command.toList.drop 1).asString, c)

/-- The full catalog of `GET /commands` with each entry tagged by its
identity key. -/
def catalogKeyed (userFiles : List String)
    (pluginFiles : List (List String × String)) : List (IdKey × Command) :=
  builtinKeyed ++
    (collectKeyed userFiles pluginFiles).map fun kc => (skillKeyToId kc.1, kc.2)

/-! ### Pane Mirror, after `stream_output.event_generator`.

One poll cycle captures the pane (`tmux capture-pane ... -S -200`); a cycle's
outcome is `some text` on success and `none` when the subprocess call raised
(invocation error or `TimeoutExpired`), which the `except` clause swallows.
The loop state is `prev`, initially Python `None`, i.e. `Option.none` — a
sentinel distinct from every capture string. An emitted event carries the
full capture text (the SSE frame JSON-encodes it; the payload is the text). -/

/-- The initial per-subscriber baseline: `prev = None`. -/
def mirrorInit : Option String := none

/-- One cycle of the polling loop: on success compare against the baseline,
emit the full capture and update the baseline only on change; on a capture
failure do nothing (the `except Exception: pass` branch). Returns the new
baseline and the events emitted this cycle. -/
def mirrorStep (prev : Option String) (capture : Option String) :
    Option String × List String :=
  match capture with
  | none => (prev, [])
  | some c => if some c = prev then (prev, []) else (some c, [c])

/-- The polling loop run over a finite list of cycle outcomes, threading the
baseline and concatenating the emitted events. -/
def mirrorRun (prev : Option String) : List (Option String) → Option String × List String
  | [] => (prev, [])
  | cap :: rest =>
    let st := mirrorStep prev cap
    let fin := mirrorRun st.1 rest
    (fin.1, st.2 ++ fin.2)

/-! ### Input Injector, after `send_text` / `send_key`.

Each handler issues `subprocess.run` calls whose argv (after the tmux binary)
we record; the session boundary (the external multiplexer, modelled from the
design document's collaborator interface) interprets each call. -/

/-- The fixed target session name `TMUX_SESSION`. -/
def TMUX_SESSION : String := "claude"

/-- The argv tails of the two calls made by `POST /send`:
literal-mode text, then the `Enter` key. -/
def sendTextCalls (text : String) : List (List String) :=
  [["send-keys", "-t", TMUX_SESSION, "-l", text],
   ["send-keys", "-t", TMUX_SESSION, "Enter"]]

/-- The argv tail of the single call made by `POST /key`. -/
def sendKeyCalls (key : String) : List (List String) :=
  [["send-keys", "-t", TMUX_SESSION, key]]

/-- What the session boundary observes for one injected key sequence. -/
inductive SessionEvent where
  | literal (session text : String)
  | keyPress (session key : String)
deriving DecidableEq, Repr

/-- Modelled from the spec: the external multiplexer's `send-keys` control
surface (the session boundary), which this repository only invokes. With the
`-l` flag the payload is delivered to the named session literally
(uninterpreted); without it the argument is a symbolic key name, passed
through unvalidated. -/
def interpretSendKeys (args : List String) : Option SessionEvent :=
  match args with
  | ["send-keys", "-t", sess, "-l", t] => some (SessionEvent.literal sess t)
  | ["send-keys", "-t", sess, k] => some (SessionEvent.keyPress sess k)
  | _ => none

/-- The success payload of the injection endpoints: status "sent". -/
structure Ack where
  status : String
deriving DecidableEq, Repr

/-- A failed tmux subprocess call: `TimeoutExpired` from the `timeout=5`
argument, or an invocation error such as the binary being absent. Either
propagates out of the handler uncaught, which the HTTP layer surfaces as a
failed response. -/
inductive TmuxError where
  | timeoutExpired
  | invocationFailure
deriving DecidableEq, Repr

/-- Run a handler's subprocess calls in order against an outcome oracle:
stop at the first failing call (the uncaught exception), otherwise fall
through to the success payload. Also returns the list of calls actually
attempted, in order. -/
def runCalls (outcome : List String → Except TmuxError Unit) :
    List (List String) → Except TmuxError Ack × List (List String)
  | [] => (Except.ok ⟨"sent"⟩, [])
  | c :: cs =>
    match outcome c with
    | Except.error e => (Except.error e, [c])
    | Except.ok _ =>
      let r := runCalls outcome cs
      (r.1, c :: r.2)

/-- The `POST /send` handler `send_text`, relative to an outcome oracle. -/
def send_text (outcome : List String → Except TmuxError Unit) (text : String) :
    Except TmuxError Ack × List (List String) :=
  runCalls outcome (sendTextCalls text)

/-- The `POST /key` handler `send_key`, relative to an outcome oracle. -/
def send_key (outcome : List String → Except TmuxError Unit) (key : String) :
    Except TmuxError Ack × List (List String) :=
  runCalls outcome (sendKeyCalls key)

/-! ### Order lemmas for the lexicographic command order. -/

/-- `lexLe` is total. -/
theorem lexLe_total : ∀ s t : List Char, lexLe s t = true ∨ lexLe t s = true := by
  intro s
  induction s with
  | nil => intro t; left; simp [lexLe]
  | cons a as ih =>
    intro t
    cases t with
    | nil => right; simp [lexLe]
    | cons b bs =>
      by_cases hab : a.toNat = b.toNat
      · rcases ih bs with h | h
        · left; simp [lexLe, hab, h]
        · right; simp [lexLe, hab.symm, h]
      · rcases Nat.lt_or_ge a.toNat b.toNat with h | h
        · left; simp [lexLe, hab, h]
        · have hba' : b.toNat ≠ a.toNat := fun e => hab e.symm
          have hba : b.toNat < a.toNat := Nat.lt_of_le_of_ne h hba'
          right
          simp [lexLe, hba', hba]

/-- `lexLe` is transitive. -/
theorem lexLe_trans :
    ∀ s t u : List Char, lexLe s t = true → lexLe t u = true → lexLe s u = true := by
  intro s
  induction s with
  | nil => intro t u _ _; simp [lexLe]
  | cons a as ih =>
    intro t u hst htu
    cases t with
    | nil => simp [lexLe] at hst
    | cons b bs =>
      cases u with
      | nil => simp [lexLe] at htu
      | cons c cs =>
        simp only [lexLe] at hst htu ⊢
        by_cases hab : a.toNat = b.toNat
        · rw [if_pos hab] at hst
          by_cases hbc : b.toNat = c.toNat
          · rw [if_pos hbc] at htu
            rw [if_pos (hab.trans hbc)]
            exact ih bs cs hst htu
          · rw [if_neg hbc] at htu
            have htu' : b.toNat < c.toNat := by simpa using htu
            have hac : a.toNat < c.toNat := hab ▸ htu'
            rw [if_neg (Nat.ne_of_lt hac)]
            simpa using hac
        · rw [if_neg hab] at hst
          have hst' : a.toNat < b.toNat := by simpa using hst
          by_cases hbc : b.toNat = c.toNat
          · have hac : a.toNat < c.toNat := hbc ▸ hst'
            rw [if_neg (Nat.ne_of_lt hac)]
            simpa using hac
          · rw [if_neg hbc] at htu
            have htu' : b.toNat < c.toNat := by simpa using htu
            have hac : a.toNat < c.toNat := Nat.lt_trans hst' htu'
            rw [if_neg (Nat.ne_of_lt hac)]
            simpa using hac

/-! ### The dedup invariant carried by the `seen` set. -/

/-- The loop invariant of `_collect_skill_commands`: the keys of the emitted
entries are pairwise distinct, and every one of them is in `seen`. -/
def KeyInv (st : List SkillKey × List (SkillKey × Command)) : Prop :=
  (st.2.map Prod.fst).Nodup ∧ ∀ k ∈ st.2.map Prod.fst, k ∈ st.1

/-- Emitting an unseen key preserves the invariant. -/
theorem keyInv_append {seen : List SkillKey} {cmds : List (SkillKey × Command)}
    {k : SkillKey} {c : Command} (h : KeyInv (seen, cmds)) (hk : k ∉ seen) :
    KeyInv (k :: seen, cmds ++ [(k, c)]) := by
  obtain ⟨hnd, hsub⟩ := h
  constructor
  · simp only [List.map_append, List.map_cons, List.map_nil, List.nodup_append]
    refine ⟨hnd, by simp, ?_⟩
    intro x hx
    simp only [List.mem_singleton]
    intro hxk
    exact hk (hxk ▸ hsub x hx)
  · intro k' hk'
    simp only [List.map_append, List.map_cons, List.map_nil, List.mem_append,
      List.mem_singleton] at hk'
    rcases hk' with hk' | hk'
    · exact List.mem_cons_of_mem _ (hsub k' hk')
    · simp [hk']

/-- `userStep` preserves the invariant. -/
theorem userStep_inv (st : List SkillKey × List (SkillKey × Command))
    (content : String) (h : KeyInv st) : KeyInv (userStep st content) := by
  unfold userStep
  split
  · split
    · next hcond => exact keyInv_append h hcond.2
    · exact h
  · exact h

/-- `pluginStep` preserves the invariant. -/
theorem pluginStep_inv (st : List SkillKey × List (SkillKey × Command))
    (file : List String × String) (h : KeyInv st) : KeyInv (pluginStep st file) := by
  unfold pluginStep
  split
  · exact h
  · split
    · split
      · next hcond => exact keyInv_append h hcond.2
      · exact h
    · exact h

/-- A fold preserves any invariant its step preserves. -/
theorem foldl_inv {σ α : Type _} (step : σ → α → σ) (P : σ → Prop)
    (h : ∀ s a, P s → P (step s a)) :
    ∀ (l : List α) (s : σ), P s → P (l.foldl step s) := by
  intro l
  induction l with
  | nil => intro s hs; exact hs
  | cons a l ih => intro s hs; exact ih _ (h s a hs)

/-- The dedup keys of the discovered entries are pairwise distinct, for
every state of the two descriptor source trees. -/
theorem collectKeyed_keys_nodup (userFiles : List String)
    (pluginFiles : List (List String × String)) :
    ((collectKeyed userFiles pluginFiles).map Prod.fst).Nodup := by
  have h0 : KeyInv ([], []) := by constructor <;> simp
  have h1 := foldl_inv userStep KeyInv userStep_inv userFiles ([], []) h0
  have h2 := foldl_inv pluginStep KeyInv pluginStep_inv pluginFiles _ h1
  have hperm :
      (collectKeyed userFiles pluginFiles).Perm
        (pluginFiles.foldl pluginStep (userFiles.foldl userStep ([], []))).2 :=
    List.perm_insertionSort _ _
  exact ((hperm.map Prod.fst).symm).nodup h2.1

/-- The discovered entries come out of the final sort ordered by command
string under the lexicographic order. -/
theorem collect_commands_sorted (userFiles : List String)
    (pluginFiles : List (List String × String)) :
    ((collect_skill_commands userFiles pluginFiles).map (fun c => c.command)).Pairwise
      (fun a b => strLe a b = true) := by
  have hs :
      List.Sorted (fun a b : SkillKey × Command => strLe a.2.command b.2.command = true)
        (collectKeyed userFiles pluginFiles) := by
    haveI : IsTotal (SkillKey × Command)
        (fun a b => strLe a.2.command b.2.command = true) :=
      ⟨fun a b => lexLe_total _ _⟩
    haveI : IsTrans (SkillKey × Command)
        (fun a b => strLe a.2.command b.2.command = true) :=
      ⟨fun a b c hab hbc => lexLe_trans _ _ _ hab hbc⟩
    exact List.sorted_insertionSort _ _
  unfold collect_skill_commands
  rw [List.map_map, List.pairwise_map]
  exact hs

/-- The claim-level identity key is injective in the dedup key. -/
theorem skillKeyToId_injective : Function.Injective skillKeyToId := by
  intro k1 k2 h
  cases k1 <;> cases k2 <;> simp only [skillKeyToId, IdKey.bare.injEq,
    IdKey.qual.injEq, reduceCtorEq] at h <;> simp_all

/-- The first `cache` segment of a path is located at the length of the
prefix not containing it. -/
theorem findIdx_cache (pre rest : List String) (h : "cache" ∉ pre) :
    (pre ++ "cache" :: rest).findIdx? (fun s => s == "cache") = some pre.length := by
  induction pre with
  | nil => simp [List.findIdx?_cons]
  | cons a pre ih =>
    have ha : (a == "cache") = false := by
      simp only [beq_eq_false_iff_ne, ne_eq]
      intro e
      exact h (by simp [e])
    have h' : "cache" ∉ pre := fun m => h (List.mem_cons_of_mem a m)
    simp only [List.cons_append, List.findIdx?_cons, ha, if_neg, Bool.false_eq_true,
      ite_false, List.findIdx?_succ, ih h', Option.map_some', List.length_cons]

/-! ### Injector execution lemmas. -/

/-- A handler's result is the success payload exactly when every one of its
subprocess calls succeeds. -/
theorem runCalls_ok_iff (outcome : List String → Except TmuxError Unit)
    (cs : List (List String)) :
    (runCalls outcome cs).1 = Except.ok ⟨"sent"⟩ ↔
      ∀ c ∈ cs, outcome c = Except.ok () := by
  induction cs with
  | nil => simp [runCalls]
  | cons c cs ih =>
    cases ho : outcome c with
    | error e => simp [runCalls, ho]
    | ok u =>
      cases u
      simp [runCalls, ho, ih]

/-- The calls a handler attempts are an in-order prefix of its call list:
execution stops at the first failure and nothing is ever reissued. -/
theorem runCalls_take (outcome : List String → Except TmuxError Unit)
    (cs : List (List String)) :
    ∃ k, (runCalls outcome cs).2 = cs.take k := by
  induction cs with
  | nil => exact ⟨0, rfl⟩
  | cons c cs ih =>
    cases ho : outcome c with
    | error e => exact ⟨1, by simp [runCalls, ho]⟩
    | ok u =>
      cases u
      obtain ⟨k, hk⟩ := ih
      exact ⟨k + 1, by simp [runCalls, ho, hk]⟩

/-! ### Claim theorems. -/

/-- C1, counterexample: the catalog served by `GET /commands` can contain two
entries with the same identity key. A user-level skill named `help` yields
`/help` with bare-name key `help`, colliding with the built-in `/help`:
discovered entries are never deduplicated against the built-in table. -/
theorem c1_counterexample :
    ¬ (((catalogKeyed ["---\nname: help\n---"] []).map Prod.fst).Nodup) := by
  decide

/-- C1, amended: the dedup invariant holds within each tier — no two
built-in entries share an identity key, and for every state of the two
descriptor source trees no two discovered entries share an identity key —
but a user-level skill may duplicate a built-in's bare command name, so the
catalog-wide form fails. -/
theorem c1_identity_key_dedup :
    (builtinKeyed.map Prod.fst).Nodup ∧
    ∀ (userFiles : List String) (pluginFiles : List (List String × String)),
      ((collectKeyed userFiles pluginFiles).map fun kc => skillKeyToId kc.1).Nodup := by
  constructor
  · decide
  · intro u p
    have h := (collectKeyed_keys_nodup u p).map skillKeyToId_injective
    rwa [List.map_map] at h

/-- C2, counterexample: the full `GET /commands` sequence is not
lexicographic by command string: a discovered skill `aaa` is appended after
the built-ins, so `/vim` precedes `/aaa`. -/
theorem c2_counterexample :
    ¬ (((get_commands ["---\nname: aaa\n---"] []).map fun c => c.command).Pairwise
        fun a b => strLe a b = true) := by
  decide

/-- C2, amended: the catalog order is deterministic and piecewise
lexicographic — the fixed built-in table is lexicographic by command string
among itself, and for every state of the descriptor source trees the
discovered entries are lexicographically ordered among themselves — but the
concatenation as a whole need not be sorted. -/
theorem c2_catalog_order :
    ((BUILTIN_COMMANDS.map fun c => c.command).Pairwise
      fun a b => strLe a b = true) ∧
    ∀ (userFiles : List String) (pluginFiles : List (List String × String)),
      ((collect_skill_commands userFiles pluginFiles).map fun c => c.command).Pairwise
        fun a b => strLe a b = true :=
  ⟨by decide, collect_commands_sorted⟩

/-- C3, counterexample: the discovered entries are not *strictly* sorted by
command string: a user skill named `x` and a plugin skill `x` of plugin `x`
have distinct identity keys but both yield command `/x`, so the catalog holds
two discovered entries with equal command strings. -/
theorem c3_counterexample :
    ((collect_skill_commands ["---\nname: x\ndescription: A\n---"]
        [(["Users", "u", ".claude", "plugins", "cache", "m", "x", "v", "SKILL.md"],
          "---\nname: x\ndescription: B\n---")]).map fun c => c.command) = ["/x", "/x"] ∧
    ¬ (((collect_skill_commands ["---\nname: x\ndescription: A\n---"]
        [(["Users", "u", ".claude", "plugins", "cache", "m", "x", "v", "SKILL.md"],
          "---\nname: x\ndescription: B\n---")]).map fun c => c.command).Pairwise
        fun a b => strLe a b = true ∧ a ≠ b) :=
  ⟨by decide, by decide⟩

/-- C3, amended: in every catalog the built-ins come first in their fixed
static order followed by all discovered entries, and the discovered entries
are sorted (non-strictly: distinct identity keys can yield equal command
strings) by command string among themselves. -/
theorem c3_discovered_sorted :
    ∀ (userFiles : List String) (pluginFiles : List (List String × String)),
      get_commands userFiles pluginFiles =
        BUILTIN_COMMANDS ++ collect_skill_commands userFiles pluginFiles ∧
      ((collect_skill_commands userFiles pluginFiles).map fun c => c.command).Pairwise
        fun a b => strLe a b = true :=
  fun u p => ⟨rfl, collect_commands_sorted u p⟩

/-- C4: in a successful capture cycle, a capture equal to the baseline emits
no event and leaves the baseline unchanged, while a differing capture emits
exactly one event carrying the entire capture verbatim, which becomes the
new baseline. -/
theorem c4_mirror_change_detection :
    ∀ (prev : Option String) (c : String),
      (prev = some c → mirrorStep prev (some c) = (prev, [])) ∧
      (prev ≠ some c → mirrorStep prev (some c) = (some c, [c])) := by
  intro prev c
  constructor
  · intro h
    simp [mirrorStep, h]
  · intro h
    have h' : some c ≠ prev := fun e => h e.symm
    simp [mirrorStep, h']

/-- Witness for C4 at the spec's scenario: baseline `A\nB`, capture
`A\nB\nC` — one event with the new full content, new baseline updated. -/
theorem c4_witness :
    mirrorStep (some "A\nB") (some "A\nB\nC") = (some "A\nB\nC", ["A\nB\nC"]) :=
  (c4_mirror_change_detection (some "A\nB") "A\nB\nC").2 (by decide)

/-- C5: a failed capture cycle emits no event, keeps the previous baseline
unchanged, and the loop continues: running the loop from a failed cycle is
running it from the remaining cycles. -/
theorem c5_mirror_failure_skip :
    ∀ (prev : Option String) (rest : List (Option String)),
      mirrorStep prev none = (prev, []) ∧
      mirrorRun prev (none :: rest) = mirrorRun prev rest := by
  intro prev rest
  refine ⟨rfl, ?_⟩
  simp [mirrorRun, mirrorStep]

/-- C6: `send_text` issues exactly two key sequences, which the session
boundary observes as the literal (uninterpreted) text payload for the target
session followed by an `Enter` key press, in that order. -/
theorem c6_send_text_order :
    ∀ text : String,
      (sendTextCalls text).map interpretSendKeys =
        [some (SessionEvent.literal TMUX_SESSION text),
         some (SessionEvent.keyPress TMUX_SESSION "Enter")] := by
  intro text
  rfl

/-- C7: `POST /send` and `POST /key` return the status-"sent" payload
exactly when every underlying send call completes; a failing call surfaces
as an error result instead of the success payload; and the attempted calls
are an in-order prefix of the (duplicate-free) call list, so nothing is
retried. -/
theorem c7_injection_response :
    ∀ (outcome : List String → Except TmuxError Unit) (text key : String),
      ((send_text outcome text).1 = Except.ok ⟨"sent"⟩ ↔
        ∀ c ∈ sendTextCalls text, outcome c = Except.ok ()) ∧
      ((send_key outcome key).1 = Except.ok ⟨"sent"⟩ ↔
        ∀ c ∈ sendKeyCalls key, outcome c = Except.ok ()) ∧
      (∃ k, (send_text outcome text).2 = (sendTextCalls text).take k) ∧
      (∃ k, (send_key outcome key).2 = (sendKeyCalls key).take k) ∧
      (sendTextCalls text).Nodup ∧ (sendKeyCalls key).Nodup := by
  intro outcome text key
  have hne : (["send-keys", "-t", TMUX_SESSION, "-l", text] : List String) ≠
      ["send-keys", "-t", TMUX_SESSION, "Enter"] := by
    intro h
    simpa using congrArg List.length h
  exact ⟨runCalls_ok_iff outcome _, runCalls_ok_iff outcome _,
    runCalls_take outcome _, runCalls_take outcome _,
    by simp [sendTextCalls, hne], by simp [sendKeyCalls]⟩

/-- Witness for C7: with every tmux call succeeding, `POST /send` returns
the status-"sent" payload. -/
theorem c7_witness :
    (send_text (fun _ => Except.ok ()) "hello").1 = Except.ok ⟨"sent"⟩ :=
  (c7_injection_response (fun _ => Except.ok ()) "hello" "Up").1.mpr
    (fun _ _ => rfl)

/-- C8: the plugin identity is the segment two positions after the first
`cache` segment; a path with that offset out of range contributes no entry;
an entry's command is `/name` when the identity equals the skill name and
`/identity:name` otherwise; and the spec's scenario
`.../cache/market1/toolkit/1.0.0/SKILL.md` with name `build` yields
`/toolkit:build`. -/
theorem c8_plugin_identity :
    ∀ (parts : List String) (content : String) (p n d : String)
      (pre rest : List String),
      (pluginNameOf parts = none →
        collect_skill_commands [] [(parts, content)] = []) ∧
      (pluginNameOf parts = some p → parse_skill_md content = (some n, d) → n ≠ "" →
        collect_skill_commands [] [(parts, content)] =
          [⟨if p = n then "/" ++ n else "/" ++ p ++ ":" ++ n, d, true⟩]) ∧
      ("cache" ∉ pre → pluginNameOf (pre ++ "cache" :: rest) = rest.get? 1) ∧
      collect_skill_commands []
          [(["Users", "u", ".claude", "plugins", "cache", "market1", "toolkit",
             "1.0.0", "SKILL.md"], "---\nname: build\n---")] =
        [⟨"/toolkit:build", "", true⟩] := by
  intro parts content p n d pre rest
  refine ⟨?_, ?_, ?_, by decide⟩
  · intro h
    simp [collect_skill_commands, collectKeyed, pluginStep, h, List.insertionSort]
  · intro hp hparse hn
    simp [collect_skill_commands, collectKeyed, pluginStep, hp, hparse, hn,
      List.insertionSort, List.orderedInsert]
  · intro h
    simp only [pluginNameOf, findIdx_cache pre rest h]
    rw [List.get?_append_right (Nat.le_add_right _ _)]
    simp

/-- Witness for C8 at the spec's scenario path and descriptor. -/
theorem c8_witness :
    collect_skill_commands []
        [(["Users", "u", ".claude", "plugins", "cache", "market1", "toolkit",
           "1.0.0", "SKILL.md"], "---\nname: build\n---")] =
      [⟨"/toolkit:build", "", true⟩] :=
  ((c8_plugin_identity
      ["Users", "u", ".claude", "plugins", "cache", "market1", "toolkit",
       "1.0.0", "SKILL.md"] "---\nname: build\n---" "toolkit" "build" "" [] []).2.1
    (by decide) (by decide) (by decide)).trans (by decide)

/-- C9: the spec's user-skill descriptor header yields exactly the
`/deploy` Command Descriptor, and a file whose content has no delimited
front-matter, or whose front-matter yields no (truthy) name, produces no
catalog entry; the parser is total, so no error is raised. -/
theorem c9_descriptor_parse :
    ∀ content : String,
      collect_skill_commands ["---\nname: deploy\ndescription: Deploy app\n---"] [] =
        [⟨"/deploy", "Deploy app", true⟩] ∧
      (frontmatterOf content = none → parse_skill_md content = (none, "")) ∧
      ((parse_skill_md content).1 = none → collect_skill_commands [content] [] = []) ∧
      ((parse_skill_md content).1 = some "" →
        collect_skill_commands [content] [] = []) := by
  intro content
  refine ⟨by decide, ?_, ?_, ?_⟩
  · intro h
    simp [parse_skill_md, h]
  · intro h
    rcases hp : parse_skill_md content with ⟨name?, d⟩
    rw [hp] at h
    simp only at h
    subst h
    simp [collect_skill_commands, collectKeyed, userStep, hp, List.insertionSort]
  · intro h
    rcases hp : parse_skill_md content with ⟨name?, d⟩
    rw [hp] at h
    simp only at h
    subst h
    simp [collect_skill_commands, collectKeyed, userStep, hp, List.insertionSort]

/-- Witness for C9: a file with no front-matter block yields no entry. -/
theorem c9_witness :
    collect_skill_commands ["not a descriptor"] [] = [] :=
  (c9_descriptor_parse "not a descriptor").2.2.1 (by decide)

/-- C10: a fresh `/stream` subscriber's baseline is the sentinel `none`,
distinct from every capture string, so the first successful capture — after
any number of failed cycles, and even when it is the empty string — always
emits one event carrying the full current content. -/
theorem c10_first_capture_emits :
    ∀ (n : Nat) (c : String),
      mirrorRun mirrorInit (List.replicate n none ++ [some c]) = (some c, [c]) ∧
      mirrorStep mirrorInit (some "") = (some "", [""]) := by
  intro n c
  refine ⟨?_, rfl⟩
  induction n with
  | zero => simp [mirrorRun, mirrorStep, mirrorInit]
  | succ n ih =>
    rw [List.replicate_succ, List.cons_append]
    simpa [mirrorRun, mirrorStep] using ih

end VoiceWrapper
